import Mathlib

/-!
The joystick reader (`joystick.h`, `joystick.cpp`) and the servo motor
controller (`robotMotor.h`, `robotMotor.cpp`) of robot-arm.

Shallow embedding of the classes `joystick` and `robotMotor` and proofs of
their documented properties.

Platform model.  The sources target the Arduino AVR boards ("Arduino analog
pins read 0 - 1023"): `int` is 16 bits wide, `long` is 32 bits wide, and
`int16_t` / `uint16_t` are `int` / `unsigned int`.  Machine integers are
embedded as `Int`; every conversion into a fixed-width type is an explicit
reduction modulo `2 ^ w` (`toInt16`, `toUInt16`, `toCInt`, `toLong`).

Peripheral reads (`analogRead`, `digitalRead`) are inputs of the embedded
functions: the value the read returned is passed as an argument.  Output on
`Serial` and the clock `millis()` do not influence any value and are left out.
The PWM driver of the motor is represented by the list of `setPWM` calls it
has received.
-/

namespace RobotArm

/-! ## Fixed-width integers -/

/-- Conversion to `int16_t`: reduction modulo `2 ^ 16` into `[-32768, 32767]`. -/
def toInt16 (x : Int) : Int := (x + 32768) % 65536 - 32768

/-- Conversion to `uint16_t`: reduction modulo `2 ^ 16` into `[0, 65535]`. -/
def toUInt16 (x : Int) : Int := x % 65536

/-- Conversion to the platform `int` (16 bits on AVR). -/
def toCInt (x : Int) : Int := (x + 32768) % 65536 - 32768

/-- Conversion to the platform `long` (32 bits). -/
def toLong (x : Int) : Int := (x + 2147483648) % 4294967296 - 2147483648

/-- The values an `int16_t` (and the platform `int`) can hold. -/
def inInt16 (x : Int) : Prop := -32768 ≤ x ∧ x ≤ 32767

/-- The values a `uint16_t` can hold. -/
def inUInt16 (x : Int) : Prop := 0 ≤ x ∧ x ≤ 65535

/-- The values a `long` can hold. -/
def inLong (x : Int) : Prop := -2147483648 ≤ x ∧ x ≤ 2147483647

instance (x : Int) : Decidable (inInt16 x) := by unfold inInt16; infer_instance
instance (x : Int) : Decidable (inUInt16 x) := by unfold inUInt16; infer_instance
instance (x : Int) : Decidable (inLong x) := by unfold inLong; infer_instance

/-! ## Arduino core helpers used by the class -/

/-- Modelled from the spec: the Arduino core macro `abs(x)`, which is
`((x)>0?(x):-(x))`, is not part of the repository sources; the spec writes it
`|sample - raw_mid|`.  It is applied at type `int`, so the negation is reduced
to the width of `int`. -/
def abs (x : Int) : Int := if x > 0 then x else toCInt (-x)

/-- Modelled from the spec: the Arduino core function
`long map(long x, long in_min, long in_max, long out_min, long out_max)` is not
part of the repository sources; the spec gives it as the affine map
`out_lo + (input - in_lo) * (out_hi - out_lo) / (in_hi - in_lo)` with the
platform's truncating integer division.  All arithmetic is `long` arithmetic;
a zero divisor is a fault and yields `none`. -/
def map (x in_min in_max out_min out_max : Int) : Option Int :=
  let num := toLong (toLong (x - in_min) * toLong (out_max - out_min))
  let den := toLong (in_max - in_min)
  if den = 0 then none
  else some (toLong (toLong (Int.tdiv num den) + out_min))

/-- The affine map of `map` over the unbounded integers (no reduction to the
width of `long`), with truncating division. -/
def mapExact (x in_min in_max out_min out_max : Int) : Int :=
  Int.tdiv ((x - in_min) * (out_max - out_min)) (in_max - in_min) + out_min

/-- Every intermediate value of `map` fits a `long`, and the divisor is not zero. -/
def mapNoOverflow (x in_min in_max out_min out_max : Int) : Prop :=
  inLong (x - in_min) ∧ inLong (out_max - out_min) ∧
  inLong ((x - in_min) * (out_max - out_min)) ∧
  inLong (in_max - in_min) ∧ in_max - in_min ≠ 0 ∧
  inLong (Int.tdiv ((x - in_min) * (out_max - out_min)) (in_max - in_min)) ∧
  inLong (mapExact x in_min in_max out_min out_max)

/-! ## The `joystick` class -/

/-- `typedef enum axis:uint8_t {X=0, Y} axis_t;` -/
inductive axis_t where
  | X
  | Y
  deriving DecidableEq, Repr

/-- The data members of `class joystick` with their default member
initialisers.  All integer members are `uint16_t`. -/
structure joystick where
  min : Int := 0
  mid : Int := 512
  max : Int := 1023
  mid_min : Int := 256
  mid_max : Int := 768
  mid_deadband : Int := 100
  x_pin : Int
  x_min : Int := min
  x_mid : Int := mid
  x_max : Int := max
  y_pin : Int
  y_min : Int := min
  y_mid : Int := mid
  y_max : Int := max
  b_pin : Int
  b_state : Bool := false
  debug : Bool := false
  deriving DecidableEq, Repr

/-- `joystick::joystick(uint16_t x, uint16_t y, uint16_t b)`: stores the pins
and the button level read by `digitalRead(b_pin)`; every other member keeps
its default initialiser. -/
def joystick.construct (x y b : Int) (level : Bool) : joystick :=
  { x_pin := x, y_pin := y, b_pin := b, b_state := level }

/-- `void joystick::calibrateCenter()`; `xRaw` and `yRaw` are the values
returned by `analogRead(x_pin)` and `analogRead(y_pin)`. -/
def joystick.calibrateCenter (j : joystick) (xRaw yRaw : Int) : joystick :=
  let x := toUInt16 xRaw
  let j1 := if x > j.mid_min ∧ x < j.mid_max then { j with x_mid := x } else j
  let y := toUInt16 yRaw
  let j2 := if y > j1.mid_min ∧ y < j1.mid_max then { j1 with y_mid := y } else j1
  j2

/-- Lines 119-135 of `joystick::getPos`: deadband, then one of the two
interpolation branches.  The result is stored back into the `int16_t val`. -/
def joystick.scale (j : joystick) (val axisMin axisMid axisMax : Int) : Option Int :=
  if toUInt16 (abs (toCInt (val - axisMid))) ≤ j.mid_deadband then
    some (toInt16 j.mid)
  else if val < axisMid then
    (map val axisMin axisMid j.min j.mid).map toInt16
  else
    (map val axisMid axisMax j.mid j.max).map toInt16

/-- `int16_t joystick::getPos(axis_t axis)`; `raw` is the value returned by
`analogRead` on the pin of the axis.  `none` is the division by zero inside
`map`. -/
def joystick.getPos (j : joystick) (axis : axis_t) (raw : Int) : Option Int :=
  match axis with
  | .X => j.scale (toInt16 raw) (toInt16 j.x_min) (toInt16 j.x_mid) (toInt16 j.x_max)
  | .Y => j.scale (toInt16 raw) (toInt16 j.y_min) (toInt16 j.y_mid) (toInt16 j.y_max)

/-- `int16_t joystick::getPosition(axis_t axis)`. -/
def joystick.getPosition (j : joystick) (axis : axis_t) (raw : Int) : Option Int :=
  j.getPos axis raw

/-- `int16_t joystick::getPosition(axis_t axis, int16_t rangeMin,
int16_t rangeMax, bool invert)`, the overload with an output range. -/
def joystick.getPositionRange (j : joystick) (axis : axis_t)
    (rangeMin rangeMax : Int) (invert : Bool) (raw : Int) : Option Int :=
  let r : Int × Int :=
    if invert then
      let r1 := toCInt rangeMin
      let r2 := toCInt rangeMax
      (toInt16 r2, toInt16 r1)
    else (rangeMin, rangeMax)
  (j.getPos axis raw).bind fun v => (map v j.min j.max r.1 r.2).map toInt16

/-- `bool joystick::getButton()`; `level` is the value returned by
`digitalRead(b_pin)`.  The result is `none` when control reaches the end of
the function body without a `return` statement. -/
def joystick.getButton (j : joystick) (level : Bool) : joystick × Option Bool :=
  let b_val := level
  if j.b_state != b_val then
    let j1 := { j with b_state := b_val }
    if j1.b_state == true then (j1, some true)
    else (j1, none)
  else (j, some false)

/-! ## Reachable states -/

/-- The calibrated raw centre of an axis (`x_mid` or `y_mid`). -/
def joystick.raw_mid (j : joystick) : axis_t → Int
  | .X => j.x_mid
  | .Y => j.y_mid

/-- The raw lower bound of an axis (`x_min` or `y_min`). -/
def joystick.raw_min (j : joystick) : axis_t → Int
  | .X => j.x_min
  | .Y => j.y_min

/-- The raw upper bound of an axis (`x_max` or `y_max`). -/
def joystick.raw_max (j : joystick) : axis_t → Int
  | .X => j.x_max
  | .Y => j.y_max

/-- States of a `joystick` object that a program can produce: construction on
three pins, then any sequence of `calibrateCenter` and `getButton` calls and
of writes to the public member `debug`.  (`getPosition` does not modify the
object.)  The peripheral reads are arbitrary. -/
inductive Reachable : joystick → Prop where
  | construct (x y b : Int) (level : Bool)
      (hx : inUInt16 x) (hy : inUInt16 y) (hb : inUInt16 b) :
      Reachable (joystick.construct x y b level)
  | calibrateCenter (j : joystick) (xRaw yRaw : Int) :
      Reachable j → Reachable (j.calibrateCenter xRaw yRaw)
  | getButton (j : joystick) (level : Bool) :
      Reachable j → Reachable (j.getButton level).1
  | setDebug (j : joystick) (d : Bool) :
      Reachable j → Reachable { j with debug := d }

/-- The configuration members hold their defaults and both calibrated centres
lie strictly between `mid_min` and `mid_max`. -/
def Calibrated (j : joystick) : Prop :=
  j.min = 0 ∧ j.mid = 512 ∧ j.max = 1023 ∧
  j.mid_min = 256 ∧ j.mid_max = 768 ∧ j.mid_deadband = 100 ∧
  (∀ a, j.raw_min a = 0) ∧ (∀ a, j.raw_max a = 1023) ∧
  (∀ a, 256 < j.raw_mid a ∧ j.raw_mid a < 768)

/-! ## Absence of overflow -/

instance (x in_min in_max out_min out_max : Int) :
    Decidable (mapNoOverflow x in_min in_max out_min out_max) := by
  unfold mapNoOverflow; infer_instance

/-- Every conversion and every arithmetic step of lines 119-135 of
`joystick::getPos` is applied to a value that the target type can hold: the
`int` difference `val - axisMid`, the negation inside `abs`, the conversion
of that `int` to `unsigned` for the comparison with `mid_deadband`, the `long`
arithmetic of the `map` call taken, and the store of the result into the
`int16_t val`. -/
def joystick.scaleNoOverflow (j : joystick) (val axisMin axisMid axisMax : Int) : Prop :=
  inInt16 (val - axisMid) ∧
  (val - axisMid > 0 ∨ inInt16 (-(val - axisMid))) ∧
  inUInt16 (abs (toCInt (val - axisMid))) ∧
  (if toUInt16 (abs (toCInt (val - axisMid))) ≤ j.mid_deadband then
    inInt16 j.mid
  else if val < axisMid then
    mapNoOverflow val axisMin axisMid j.min j.mid ∧
      inInt16 (mapExact val axisMin axisMid j.min j.mid)
  else
    mapNoOverflow val axisMid axisMax j.mid j.max ∧
      inInt16 (mapExact val axisMid axisMax j.mid j.max))

/-- No step of `joystick::getPos` overflows: the sample and the three
calibration members fit the `int16_t` locals they are stored into, and
`scaleNoOverflow` holds for the rest of the body. -/
def joystick.getPosNoOverflow (j : joystick) (axis : axis_t) (raw : Int) : Prop :=
  match axis with
  | .X => inInt16 raw ∧ inInt16 j.x_min ∧ inInt16 j.x_mid ∧ inInt16 j.x_max ∧
      j.scaleNoOverflow raw j.x_min j.x_mid j.x_max
  | .Y => inInt16 raw ∧ inInt16 j.y_min ∧ inInt16 j.y_mid ∧ inInt16 j.y_max ∧
      j.scaleNoOverflow raw j.y_min j.y_mid j.y_max

instance (j : joystick) (val axisMin axisMid axisMax : Int) :
    Decidable (j.scaleNoOverflow val axisMin axisMid axisMax) := by
  unfold joystick.scaleNoOverflow; infer_instance

instance (j : joystick) (axis : axis_t) (raw : Int) :
    Decidable (j.getPosNoOverflow axis raw) := by
  unfold joystick.getPosNoOverflow; cases axis <;> infer_instance

/-! ## Successive button reads -/

/-- The results of successive `getButton()` calls, one per level read by
`digitalRead(b_pin)`, each call starting from the state the previous one left. -/
def joystick.getButtons (j : joystick) : List Bool → List (Option Bool)
  | [] => []
  | level :: rest => (j.getButton level).2 :: (j.getButton level).1.getButtons rest

/-! ## State-passing form of the reads -/

/-- State-passing form of `joystick::getPosition(axis_t axis)`: the object after
the call and the value returned.  The body of `getPos` assigns only its locals
`val`, `axisMin`, `axisMid` and `axisMax`; no data member is written. -/
def joystick.getPositionRun (j : joystick) (axis : axis_t) (raw : Int) :
    joystick × Option Int :=
  (j, j.getPosition axis raw)

/-- State-passing form of the range overload of `joystick::getPosition`: the
object after the call and the value returned.  The body swaps its parameters
`rangeMin` and `rangeMax` and calls `getPos`; no data member is written. -/
def joystick.getPositionRangeRun (j : joystick) (axis : axis_t)
    (rangeMin rangeMax : Int) (invert : Bool) (raw : Int) : joystick × Option Int :=
  (j, j.getPositionRange axis rangeMin rangeMax invert raw)

/-! ## The `robotMotor` class (`robotMotor.h`, `robotMotor.cpp`) -/

/-- One call `svo.setPWM(motorID, 0, pulseWidth(angle))` received by the PWM
driver: the channel and the angle handed to `pulseWidth`.  (`pulseWidth` turns
the angle into a tick count with `float` arithmetic and is not embedded.) -/
structure PwmWrite where
  channel : Int
  angle : Int
  deriving DecidableEq, Repr

/-- The data members of `class robotMotor` with their default member
initialisers; all are `int`.  The driver object `svo` is represented by the
`setPWM` calls it has received, most recent first. -/
structure robotMotor where
  i2cAddress : Int := 64
  motorID : Int
  minPosition : Int := 0
  maxPosition : Int := 180
  centerPosition : Int := 90
  position : Int := 90
  svo : List PwmWrite := []
  deriving DecidableEq, Repr

/-- `robotMotor::robotMotor()`: the body is empty.  `motorID` has no
initialiser; its indeterminate value is the argument. -/
def robotMotor.construct (motorID : Int) : robotMotor :=
  { motorID := motorID }

/-- `void robotMotor::attach(int i2c, int ch)`. -/
def robotMotor.attach (m : robotMotor) (i2c ch : Int) : robotMotor :=
  let m1 := { m with i2cAddress := i2c }
  let m2 := { m1 with motorID := ch }
  let m3 := { m2 with position := m2.centerPosition }
  { m3 with svo := { channel := m3.motorID, angle := m3.position } :: m3.svo }

/-- `void robotMotor::moveInc(int val)`; the sum is `int` arithmetic. -/
def robotMotor.moveInc (m : robotMotor) (val : Int) : robotMotor :=
  let tempPosition := toCInt (m.position + val)
  let m1 :=
    if tempPosition > m.maxPosition then { m with position := m.maxPosition }
    else if tempPosition < m.minPosition then { m with position := m.minPosition }
    else { m with position := tempPosition }
  { m1 with svo := { channel := m1.motorID, angle := m1.position } :: m1.svo }

/-- `void robotMotor::setPosition(int pos)`. -/
def robotMotor.setPosition (m : robotMotor) (pos : Int) : robotMotor :=
  let tempPosition := pos
  let m1 :=
    if tempPosition > m.maxPosition then { m with position := m.maxPosition }
    else if tempPosition < m.minPosition then { m with position := m.minPosition }
    else { m with position := tempPosition }
  { m1 with svo := { channel := m1.motorID, angle := m1.position } :: m1.svo }

/-- `int robotMotor::getPosition()`: the object after the call and the value
returned. -/
def robotMotor.getPosition (m : robotMotor) : robotMotor × Int :=
  let m1 :=
    if m.position > m.maxPosition then { m with position := m.maxPosition }
    else if m.position < m.minPosition then { m with position := m.minPosition }
    else { m with position := m.position }
  (m1, m1.position)

/-- `void robotMotor::setCenterPosition(int pos)`. -/
def robotMotor.setCenterPosition (m : robotMotor) (pos : Int) : robotMotor :=
  if pos > m.maxPosition then { m with centerPosition := m.maxPosition }
  else if pos < m.minPosition then { m with centerPosition := m.minPosition }
  else { m with centerPosition := pos }

/-- `int robotMotor::getCenterPosition()`. -/
def robotMotor.getCenterPosition (m : robotMotor) : Int := m.centerPosition

/-- `void robotMotor::setMinPosition(int pos)`. -/
def robotMotor.setMinPosition (m : robotMotor) (pos : Int) : robotMotor :=
  if pos > m.maxPosition then m
  else { m with minPosition := pos }

/-- `int robotMotor::getMinPosition()`. -/
def robotMotor.getMinPosition (m : robotMotor) : Int := m.minPosition

/-- `void robotMotor::setMaxPosition(int pos)`. -/
def robotMotor.setMaxPosition (m : robotMotor) (pos : Int) : robotMotor :=
  if pos < m.minPosition then m
  else { m with maxPosition := pos }

/-- `int robotMotor::getMaxPosition()`. -/
def robotMotor.getMaxPosition (m : robotMotor) : Int := m.maxPosition

/-- `int robotMotor::getID()`. -/
def robotMotor.getID (m : robotMotor) : Int := m.motorID

/-- The angle most recently sent to the PWM driver, if any was sent. -/
def robotMotor.lastAngle (m : robotMotor) : Option Int :=
  m.svo.head?.map fun w => w.angle

/-- States of a `robotMotor` object that a program can produce: construction,
then any sequence of calls of the public methods with `int` arguments.  (The
getters other than `getPosition` and `printPosition` do not modify the
object.) -/
inductive MotorReachable : robotMotor → Prop where
  | construct (motorID : Int) (h : inInt16 motorID) :
      MotorReachable (robotMotor.construct motorID)
  | attach (m : robotMotor) (i2c ch : Int) (hi : inInt16 i2c) (hc : inInt16 ch) :
      MotorReachable m → MotorReachable (m.attach i2c ch)
  | moveInc (m : robotMotor) (val : Int) (hv : inInt16 val) :
      MotorReachable m → MotorReachable (m.moveInc val)
  | setPosition (m : robotMotor) (pos : Int) (hp : inInt16 pos) :
      MotorReachable m → MotorReachable (m.setPosition pos)
  | getPosition (m : robotMotor) :
      MotorReachable m → MotorReachable m.getPosition.1
  | setCenterPosition (m : robotMotor) (pos : Int) (hp : inInt16 pos) :
      MotorReachable m → MotorReachable (m.setCenterPosition pos)
  | setMinPosition (m : robotMotor) (pos : Int) (hp : inInt16 pos) :
      MotorReachable m → MotorReachable (m.setMinPosition pos)
  | setMaxPosition (m : robotMotor) (pos : Int) (hp : inInt16 pos) :
      MotorReachable m → MotorReachable (m.setMaxPosition pos)

/-! ## Basic facts -/

theorem toInt16_eq {x : Int} (h : inInt16 x) : toInt16 x = x := by
  unfold inInt16 at h; unfold toInt16; omega

theorem toCInt_eq {x : Int} (h : inInt16 x) : toCInt x = x := by
  unfold inInt16 at h; unfold toCInt; omega

theorem toLong_eq {x : Int} (h : inLong x) : toLong x = x := by
  unfold inLong at h; unfold toLong; omega

theorem toUInt16_eq {x : Int} (h : inUInt16 x) : toUInt16 x = x := by
  unfold inUInt16 at h; unfold toUInt16; omega

theorem toUInt16_range (x : Int) : 0 ≤ toUInt16 x ∧ toUInt16 x < 65536 := by
  unfold toUInt16; omega

theorem calibrated_construct (x y b : Int) (level : Bool) :
    Calibrated (joystick.construct x y b level) := by
  refine ⟨rfl, rfl, rfl, rfl, rfl, rfl, ?_, ?_, ?_⟩ <;> intro a <;> cases a <;>
    simp [joystick.construct, joystick.raw_min, joystick.raw_max, joystick.raw_mid]

theorem calibrated_calibrateCenter {j : joystick} (h : Calibrated j) (xRaw yRaw : Int) :
    Calibrated (j.calibrateCenter xRaw yRaw) := by
  obtain ⟨h1, h2, h3, h4, h5, h6, h7, h8, h9⟩ := h
  have hx := h9 .X
  have hy := h9 .Y
  have h7x := h7 .X
  have h7y := h7 .Y
  have h8x := h8 .X
  have h8y := h8 .Y
  simp only [joystick.raw_mid, joystick.raw_min, joystick.raw_max] at hx hy h7x h7y h8x h8y
  unfold joystick.calibrateCenter
  by_cases cx : toUInt16 xRaw > j.mid_min ∧ toUInt16 xRaw < j.mid_max <;>
  by_cases cy : toUInt16 yRaw > j.mid_min ∧ toUInt16 yRaw < j.mid_max <;>
  simp only [cx, cy, if_true, if_false, and_self] <;>
  refine ⟨h1, h2, h3, h4, h5, h6, ?_, ?_, ?_⟩ <;> intro a <;> cases a <;>
  simp only [joystick.raw_mid, joystick.raw_min, joystick.raw_max] <;>
  first | assumption | omega

theorem calibrated_getButton {j : joystick} (h : Calibrated j) (level : Bool) :
    Calibrated (j.getButton level).1 := by
  cases level <;> cases hb : j.b_state <;>
    (unfold joystick.getButton; rw [hb]; exact h)

theorem reachable_calibrated {j : joystick} (h : Reachable j) : Calibrated j := by
  induction h with
  | construct x y b level _ _ _ => exact calibrated_construct x y b level
  | calibrateCenter j xRaw yRaw _ ih => exact calibrated_calibrateCenter ih xRaw yRaw
  | getButton j level _ ih => exact calibrated_getButton ih level
  | setDebug j d _ ih => exact ih

/-! ## Arithmetic of `map` -/

theorem tdiv_bounds {a c k : Int} (ha : 0 ≤ a) (hc : 0 < c) (h : a ≤ k * c) :
    0 ≤ Int.tdiv a c ∧ Int.tdiv a c ≤ k := by
  rw [Int.tdiv_eq_ediv ha (le_of_lt hc)]
  exact ⟨Int.ediv_nonneg ha (le_of_lt hc), Int.ediv_le_of_le_mul hc h⟩

theorem tdiv_mono {a b c : Int} (ha : 0 ≤ a) (hab : a ≤ b) (hc : 0 < c) :
    Int.tdiv a c ≤ Int.tdiv b c := by
  rw [Int.tdiv_eq_ediv ha (le_of_lt hc), Int.tdiv_eq_ediv (le_trans ha hab) (le_of_lt hc)]
  exact Int.ediv_le_ediv hc hab

theorem map_eq_exact {x in_min in_max out_min out_max : Int}
    (h : mapNoOverflow x in_min in_max out_min out_max) :
    map x in_min in_max out_min out_max = some (mapExact x in_min in_max out_min out_max) := by
  obtain ⟨h1, h2, h3, h4, h5, h6, h7⟩ := h
  unfold mapExact at h7
  unfold map mapExact
  simp only [toLong_eq h1, toLong_eq h2, toLong_eq h3, toLong_eq h4, toLong_eq h6,
    toLong_eq h7, h5, if_false]

/-- The lower interpolation branch on a calibrated axis: exact value and range. -/
theorem map_low {s m : Int} (hs : 0 ≤ s) (hsm : s ≤ m) (hm : 0 < m) (hm2 : m ≤ 32767) :
    mapNoOverflow s 0 m 0 512 ∧ 0 ≤ mapExact s 0 m 0 512 ∧ mapExact s 0 m 0 512 ≤ 512 := by
  have hb : 0 ≤ Int.tdiv ((s - 0) * (512 - 0)) (m - 0) ∧
      Int.tdiv ((s - 0) * (512 - 0)) (m - 0) ≤ 512 :=
    tdiv_bounds (by omega) (by omega) (by omega)
  unfold mapNoOverflow mapExact inLong
  omega

/-- The upper interpolation branch on a calibrated axis: exact value and range. -/
theorem map_high {s m : Int} (hms : m ≤ s) (hs : s ≤ 1023) (hm : 0 ≤ m) (hm1 : m < 1023) :
    mapNoOverflow s m 1023 512 1023 ∧ 512 ≤ mapExact s m 1023 512 1023 ∧
      mapExact s m 1023 512 1023 ≤ 1023 := by
  have hb : 0 ≤ Int.tdiv ((s - m) * (1023 - 512)) (1023 - m) ∧
      Int.tdiv ((s - m) * (1023 - 512)) (1023 - m) ≤ 511 :=
    tdiv_bounds (by omega) (by omega) (by omega)
  unfold mapNoOverflow mapExact inLong
  omega

/-! ## Evaluation of `getPos` on a calibrated reader -/

theorem scale_dead (j : joystick) (hmid : j.mid = 512) (hd : j.mid_deadband = 100)
    {s m : Int} (h : -100 ≤ s - m ∧ s - m ≤ 100)
    (lo hi : Int) : j.scale s lo m hi = some 512 := by
  have e1 : toCInt (s - m) = s - m := toCInt_eq (by unfold inInt16; omega)
  have e2 : toUInt16 (abs (s - m)) ≤ 100 := by
    unfold abs toUInt16 toCInt
    split <;> omega
  unfold joystick.scale
  rw [e1, hd, if_pos e2, hmid]
  rfl

theorem scale_low (j : joystick) (hmin : j.min = 0) (hmid : j.mid = 512)
    (hd : j.mid_deadband = 100) {s m : Int} (hm : 256 < m ∧ m < 768)
    (hs : 0 ≤ s) (h : s < m - 100) (hi : Int) :
    j.scale s 0 m hi = some (mapExact s 0 m 0 512) := by
  have e1 : toCInt (s - m) = s - m := toCInt_eq (by unfold inInt16; omega)
  have e2 : ¬ toUInt16 (abs (s - m)) ≤ 100 := by
    unfold abs toUInt16 toCInt
    split <;> omega
  obtain ⟨k1, k2, k3⟩ := map_low hs (by omega : s ≤ m) (by omega : 0 < m) (by omega)
  unfold joystick.scale
  rw [e1, hd, if_neg e2, if_pos (by omega : s < m), hmin, hmid, map_eq_exact k1]
  simp only [Option.map_some']
  rw [toInt16_eq (by unfold inInt16; omega)]

theorem scale_high (j : joystick) (hmid : j.mid = 512) (hmax : j.max = 1023)
    (hd : j.mid_deadband = 100) {s m : Int} (hm : 256 < m ∧ m < 768)
    (h : m + 100 < s) (hs : s ≤ 1023) (lo : Int) :
    j.scale s lo m 1023 = some (mapExact s m 1023 512 1023) := by
  have e1 : toCInt (s - m) = s - m := toCInt_eq (by unfold inInt16; omega)
  have e2 : ¬ toUInt16 (abs (s - m)) ≤ 100 := by
    unfold abs toUInt16 toCInt
    split <;> omega
  obtain ⟨k1, k2, k3⟩ := map_high (by omega : m ≤ s) hs (by omega : 0 ≤ m) (by omega)
  unfold joystick.scale
  rw [e1, hd, if_neg e2, if_neg (by omega : ¬ s < m), hmid, hmax, map_eq_exact k1]
  simp only [Option.map_some']
  rw [toInt16_eq (by unfold inInt16; omega)]

/-- On a calibrated reader `getPos` hands `scale` the raw sample and the three
calibration values of the axis unchanged. -/
theorem getPos_eq_scale {j : joystick} (hc : Calibrated j) (a : axis_t) {s : Int}
    (hs : inInt16 s) : j.getPos a s = j.scale s 0 (j.raw_mid a) 1023 := by
  obtain ⟨_, _, _, _, _, _, h7, h8, h9⟩ := hc
  have l := h7 a
  have u := h8 a
  have c := h9 a
  cases a <;> simp only [joystick.raw_min, joystick.raw_max, joystick.raw_mid] at l u c <;>
    simp only [joystick.getPos, joystick.raw_mid, l, u] <;>
    rw [toInt16_eq hs, toInt16_eq (by unfold inInt16; omega : inInt16 0),
      toInt16_eq (by unfold inInt16; omega : inInt16 1023), toInt16_eq (by unfold inInt16; omega)]

theorem getPos_dead {j : joystick} (hc : Calibrated j) (a : axis_t) {s : Int}
    (h : -100 ≤ s - j.raw_mid a ∧ s - j.raw_mid a ≤ 100) : j.getPos a s = some 512 := by
  have c := hc.2.2.2.2.2.2.2.2 a
  rw [getPos_eq_scale hc a (by unfold inInt16; omega)]
  exact scale_dead j hc.2.1 hc.2.2.2.2.2.1 h 0 1023

theorem getPos_low {j : joystick} (hc : Calibrated j) (a : axis_t) {s : Int}
    (hs : 0 ≤ s) (h : s < j.raw_mid a - 100) :
    j.getPos a s = some (mapExact s 0 (j.raw_mid a) 0 512) := by
  have c := hc.2.2.2.2.2.2.2.2 a
  rw [getPos_eq_scale hc a (by unfold inInt16; omega)]
  exact scale_low j hc.1 hc.2.1 hc.2.2.2.2.2.1 c hs h 1023

theorem getPos_high {j : joystick} (hc : Calibrated j) (a : axis_t) {s : Int}
    (h : j.raw_mid a + 100 < s) (hs : s ≤ 1023) :
    j.getPos a s = some (mapExact s (j.raw_mid a) 1023 512 1023) := by
  have c := hc.2.2.2.2.2.2.2.2 a
  rw [getPos_eq_scale hc a (by unfold inInt16; omega)]
  exact scale_high j hc.2.1 hc.2.2.1 hc.2.2.2.2.2.1 c h hs 0

/-! ## The range rescale of `getPosition(axis, rangeMin, rangeMax, invert)` -/

/-- Truncating division by a positive divisor is monotone in the dividend. -/
theorem tdiv_mono_gen {a b c : Int} (hab : a ≤ b) (hc : 0 < c) :
    Int.tdiv a c ≤ Int.tdiv b c := by
  rcases le_or_lt 0 a with ha | ha
  · exact tdiv_mono ha hab hc
  · rcases le_or_lt 0 b with hb | hb
    · have h1 : 0 ≤ Int.tdiv (-a) c := Int.tdiv_nonneg (by omega) (le_of_lt hc)
      have h2 : 0 ≤ Int.tdiv b c := Int.tdiv_nonneg hb (le_of_lt hc)
      have h3 : Int.tdiv a c = -Int.tdiv (-a) c := by rw [Int.neg_tdiv, neg_neg]
      omega
    · have h1 : Int.tdiv (-b) c ≤ Int.tdiv (-a) c :=
        tdiv_mono (by omega) (by omega) hc
      have h3 : Int.tdiv a c = -Int.tdiv (-a) c := by rw [Int.neg_tdiv, neg_neg]
      have h4 : Int.tdiv b c = -Int.tdiv (-b) c := by rw [Int.neg_tdiv, neg_neg]
      omega

/-- The rescale of a calibrated value `v` in `[0, 1023]` to the range given by
two `int16_t` bounds: no `long` overflow, and the value lies between the bounds. -/
theorem map_range {v a b : Int} (hv : 0 ≤ v ∧ v ≤ 1023) (ha : inInt16 a) (hb : inInt16 b) :
    mapNoOverflow v 0 1023 a b ∧
    (a ≤ b → a ≤ mapExact v 0 1023 a b ∧ mapExact v 0 1023 a b ≤ b) ∧
    (b ≤ a → b ≤ mapExact v 0 1023 a b ∧ mapExact v 0 1023 a b ≤ a) := by
  unfold inInt16 at ha hb
  have hq : (0 ≤ b - a → 0 ≤ Int.tdiv ((v - 0) * (b - a)) (1023 - 0) ∧
        Int.tdiv ((v - 0) * (b - a)) (1023 - 0) ≤ b - a) ∧
      (b - a ≤ 0 → b - a ≤ Int.tdiv ((v - 0) * (b - a)) (1023 - 0) ∧
        Int.tdiv ((v - 0) * (b - a)) (1023 - 0) ≤ 0) := by
    constructor
    · intro hd
      have h1 : 0 ≤ (v - 0) * (b - a) := mul_nonneg (by omega) hd
      have h2 : (v - 0) * (b - a) ≤ (b - a) * (1023 - 0) := by
        rw [mul_comm]
        exact mul_le_mul_of_nonneg_left (by omega) hd
      exact tdiv_bounds h1 (by omega) h2
    · intro hd
      have h1 : 0 ≤ (v - 0) * (a - b) := mul_nonneg (by omega) (by omega)
      have h2 : (v - 0) * (a - b) ≤ (a - b) * (1023 - 0) := by
        rw [mul_comm]
        exact mul_le_mul_of_nonneg_left (by omega) (by omega)
      have h3 := tdiv_bounds h1 (by omega : (0 : Int) < 1023 - 0) h2
      have h4 : (v - 0) * (b - a) = -((v - 0) * (a - b)) := by ring
      rw [h4, Int.neg_tdiv]
      omega
  have hp : -67042305 ≤ (v - 0) * (b - a) ∧ (v - 0) * (b - a) ≤ 67042305 := by
    rcases le_or_lt 0 (b - a) with hd | hd
    · have h1 : 0 ≤ (v - 0) * (b - a) := mul_nonneg (by omega) hd
      have h2 : (v - 0) * (b - a) ≤ 1023 * (b - a) :=
        mul_le_mul_of_nonneg_right (by omega) hd
      omega
    · have h1 : 0 ≤ (v - 0) * (a - b) := mul_nonneg (by omega) (by omega)
      have h2 : (v - 0) * (a - b) ≤ 1023 * (a - b) :=
        mul_le_mul_of_nonneg_right (by omega) (by omega)
      have h4 : (v - 0) * (b - a) = -((v - 0) * (a - b)) := by ring
      omega
  unfold mapNoOverflow mapExact inLong
  refine ⟨⟨by omega, by omega, by omega, by omega, by omega, ?_, ?_⟩, ?_, ?_⟩
  · rcases le_or_lt 0 (b - a) with hd | hd
    · have := hq.1 hd; omega
    · have := hq.2 (by omega); omega
  · rcases le_or_lt 0 (b - a) with hd | hd
    · have := hq.1 hd; omega
    · have := hq.2 (by omega); omega
  · intro hab; have := hq.1 (by omega); omega
  · intro hab; have := hq.2 (by omega); omega

/-- The rescale step of the range overload, evaluated on a calibrated reader. -/
theorem rescale_eq {j : joystick} (hc : Calibrated j) {v a b : Int}
    (hv : 0 ≤ v ∧ v ≤ 1023) (ha : inInt16 a) (hb : inInt16 b) :
    (map v j.min j.max a b).map toInt16 = some (mapExact v 0 1023 a b) := by
  obtain ⟨k1, k2, k3⟩ := map_range hv ha hb
  unfold inInt16 at ha hb
  rw [hc.1, hc.2.2.1, map_eq_exact k1]
  simp only [Option.map_some']
  rw [toInt16_eq]
  unfold inInt16
  rcases le_or_lt a b with h | h
  · have := k2 h; omega
  · have := k3 (by omega); omega

/-- The rescale is non-increasing in the calibrated value when the bounds descend
and non-decreasing when they ascend. -/
theorem mapExact_rescale_mono {v w a b : Int} (hvw : v ≤ w) :
    (b ≤ a → mapExact w 0 1023 a b ≤ mapExact v 0 1023 a b) ∧
    (a ≤ b → mapExact v 0 1023 a b ≤ mapExact w 0 1023 a b) := by
  unfold mapExact
  constructor
  · intro h
    have h1 : (w - 0) * (b - a) ≤ (v - 0) * (b - a) :=
      mul_le_mul_of_nonpos_right (by omega) (by omega)
    have := tdiv_mono_gen h1 (by omega : (0 : Int) < 1023 - 0)
    omega
  · intro h
    have h1 : (v - 0) * (b - a) ≤ (w - 0) * (b - a) :=
      mul_le_mul_of_nonneg_right (by omega) (by omega)
    have := tdiv_mono_gen h1 (by omega : (0 : Int) < 1023 - 0)
    omega

/-- On a calibrated reader the calibrated value is defined, lies in `[0, 1023]`
and is non-decreasing in the raw sample over the whole ADC range. -/
theorem getPos_mono {j : joystick} (hc : Calibrated j) (a : axis_t) {s t : Int}
    (hs : 0 ≤ s) (hst : s ≤ t) (ht : t ≤ 1023) :
    ∃ cs ct, j.getPos a s = some cs ∧ j.getPos a t = some ct ∧
      0 ≤ cs ∧ cs ≤ ct ∧ ct ≤ 1023 := by
  have hm := hc.2.2.2.2.2.2.2.2 a
  have lowS : s < j.raw_mid a - 100 → j.getPos a s = some (mapExact s 0 (j.raw_mid a) 0 512) ∧
      0 ≤ mapExact s 0 (j.raw_mid a) 0 512 ∧ mapExact s 0 (j.raw_mid a) 0 512 ≤ 512 :=
    fun h => ⟨getPos_low hc a hs h, (map_low hs (by omega) (by omega) (by omega)).2⟩
  have lowT : t < j.raw_mid a - 100 → j.getPos a t = some (mapExact t 0 (j.raw_mid a) 0 512) ∧
      0 ≤ mapExact t 0 (j.raw_mid a) 0 512 ∧ mapExact t 0 (j.raw_mid a) 0 512 ≤ 512 :=
    fun h => ⟨getPos_low hc a (by omega) h, (map_low (by omega) (by omega) (by omega) (by omega)).2⟩
  have highS : j.raw_mid a + 100 < s →
      j.getPos a s = some (mapExact s (j.raw_mid a) 1023 512 1023) ∧
      512 ≤ mapExact s (j.raw_mid a) 1023 512 1023 ∧
      mapExact s (j.raw_mid a) 1023 512 1023 ≤ 1023 :=
    fun h => ⟨getPos_high hc a h (by omega), (map_high (by omega) (by omega) (by omega) (by omega)).2⟩
  have highT : j.raw_mid a + 100 < t →
      j.getPos a t = some (mapExact t (j.raw_mid a) 1023 512 1023) ∧
      512 ≤ mapExact t (j.raw_mid a) 1023 512 1023 ∧
      mapExact t (j.raw_mid a) 1023 512 1023 ≤ 1023 :=
    fun h => ⟨getPos_high hc a h ht, (map_high (by omega) ht (by omega) (by omega)).2⟩
  rcases lt_or_le s (j.raw_mid a - 100) with c1 | c1
  · obtain ⟨e1, b1, b2⟩ := lowS c1
    rcases lt_or_le t (j.raw_mid a - 100) with d1 | d1
    · obtain ⟨e2, b3, b4⟩ := lowT d1
      refine ⟨_, _, e1, e2, b1, ?_, by omega⟩
      unfold mapExact
      have := tdiv_mono (a := (s - 0) * (512 - 0)) (b := (t - 0) * (512 - 0))
        (c := j.raw_mid a - 0) (by omega) (by omega) (by omega)
      omega
    · rcases le_or_lt t (j.raw_mid a + 100) with d2 | d2
      · exact ⟨_, 512, e1, getPos_dead hc a ⟨by omega, by omega⟩, b1, b2, by omega⟩
      · obtain ⟨e2, b3, b4⟩ := highT d2
        exact ⟨_, _, e1, e2, b1, by omega, b4⟩
  · rcases le_or_lt s (j.raw_mid a + 100) with c2 | c2
    · rcases le_or_lt t (j.raw_mid a + 100) with d2 | d2
      · exact ⟨512, 512, getPos_dead hc a ⟨by omega, by omega⟩,
          getPos_dead hc a ⟨by omega, by omega⟩, by omega, le_refl _, by omega⟩
      · obtain ⟨e2, b3, b4⟩ := highT d2
        exact ⟨512, _, getPos_dead hc a ⟨by omega, by omega⟩, e2, by omega, b3, b4⟩
    · obtain ⟨e1, b1, b2⟩ := highS c2
      obtain ⟨e2, b3, b4⟩ := highT (by omega)
      refine ⟨_, _, e1, e2, by omega, ?_, b4⟩
      unfold mapExact
      have := tdiv_mono (a := (s - j.raw_mid a) * (1023 - 512))
        (b := (t - j.raw_mid a) * (1023 - 512)) (c := 1023 - j.raw_mid a)
        (by omega) (by omega) (by omega)
      omega

/-! ## Division by zero -/

/-- `map` faults only on a zero divisor. -/
theorem map_ne_none {x in_min in_max out_min out_max : Int}
    (h : toLong (in_max - in_min) ≠ 0) : map x in_min in_max out_min out_max ≠ none := by
  unfold map
  simp only [h, if_false]
  exact Option.some_ne_none _

/-- On a calibrated reader neither `map` call of `getPos` has a zero divisor,
whatever value is interpolated. -/
theorem calibrated_map_ne_none {j : joystick} (hc : Calibrated j) (a : axis_t) (val : Int) :
    map val (toInt16 (j.raw_min a)) (toInt16 (j.raw_mid a)) j.min j.mid ≠ none ∧
    map val (toInt16 (j.raw_mid a)) (toInt16 (j.raw_max a)) j.mid j.max ≠ none := by
  have hl := hc.2.2.2.2.2.2.1 a
  have hu := hc.2.2.2.2.2.2.2.1 a
  have hm := hc.2.2.2.2.2.2.2.2 a
  constructor <;> apply map_ne_none <;> rw [hl] at * <;> rw [hu] at * <;>
    unfold toLong toInt16 <;> omega

/-- On a calibrated reader `getPos` returns a value for every sample. -/
theorem calibrated_getPos_ne_none {j : joystick} (hc : Calibrated j) (a : axis_t) (s : Int) :
    j.getPos a s ≠ none := by
  have k : ∀ val, j.scale val (toInt16 (j.raw_min a)) (toInt16 (j.raw_mid a))
      (toInt16 (j.raw_max a)) ≠ none := by
    intro val
    obtain ⟨k1, k2⟩ := calibrated_map_ne_none hc a val
    unfold joystick.scale
    split
    · exact Option.some_ne_none _
    · split
      · intro h; rw [Option.map_eq_none'] at h; exact k1 h
      · intro h; rw [Option.map_eq_none'] at h; exact k2 h
  cases a <;> exact k _
/-! ## Limits of the motor -/

theorem setMinPosition_limits {m : robotMotor} (h : m.minPosition ≤ m.maxPosition)
    (pos : Int) :
    (m.setMinPosition pos).minPosition ≤ (m.setMinPosition pos).maxPosition := by
  unfold robotMotor.setMinPosition
  split
  · exact h
  · show pos ≤ m.maxPosition
    omega

theorem setMaxPosition_limits {m : robotMotor} (h : m.minPosition ≤ m.maxPosition)
    (pos : Int) :
    (m.setMaxPosition pos).minPosition ≤ (m.setMaxPosition pos).maxPosition := by
  unfold robotMotor.setMaxPosition
  split
  · exact h
  · show m.minPosition ≤ pos
    omega

theorem moveInc_limits (m : robotMotor) (val : Int) :
    (m.moveInc val).minPosition = m.minPosition ∧
    (m.moveInc val).maxPosition = m.maxPosition := by
  simp only [robotMotor.moveInc]
  split_ifs <;> exact ⟨rfl, rfl⟩

theorem setPosition_limits (m : robotMotor) (pos : Int) :
    (m.setPosition pos).minPosition = m.minPosition ∧
    (m.setPosition pos).maxPosition = m.maxPosition := by
  simp only [robotMotor.setPosition]
  split_ifs <;> exact ⟨rfl, rfl⟩

theorem getPosition_limits (m : robotMotor) :
    m.getPosition.1.minPosition = m.minPosition ∧
    m.getPosition.1.maxPosition = m.maxPosition := by
  simp only [robotMotor.getPosition]
  split_ifs <;> exact ⟨rfl, rfl⟩

theorem setCenterPosition_limits (m : robotMotor) (pos : Int) :
    (m.setCenterPosition pos).minPosition = m.minPosition ∧
    (m.setCenterPosition pos).maxPosition = m.maxPosition := by
  simp only [robotMotor.setCenterPosition]
  split_ifs <;> exact ⟨rfl, rfl⟩

/-- In every reachable state of the motor `minPosition <= maxPosition`. -/
theorem motor_reachable_limits {m : robotMotor} (h : MotorReachable m) :
    m.minPosition ≤ m.maxPosition := by
  induction h with
  | construct motorID _ => show (0 : Int) ≤ 180; decide
  | attach m i2c ch _ _ _ ih => exact ih
  | moveInc m val _ _ ih =>
    rw [(moveInc_limits m val).1, (moveInc_limits m val).2]; exact ih
  | setPosition m pos _ _ ih =>
    rw [(setPosition_limits m pos).1, (setPosition_limits m pos).2]; exact ih
  | getPosition m _ ih =>
    rw [(getPosition_limits m).1, (getPosition_limits m).2]; exact ih
  | setCenterPosition m pos _ _ ih =>
    rw [(setCenterPosition_limits m pos).1, (setCenterPosition_limits m pos).2]; exact ih
  | setMinPosition m pos _ _ ih => exact setMinPosition_limits ih pos
  | setMaxPosition m pos _ _ ih => exact setMaxPosition_limits ih pos
/-! ## Calibrated reading: `getPosition(axis)` -/

/-- C1: on every reachable reader, for every axis and every raw sample `s`
with `|s - raw_mid| <= mid_deadband` (the deadband is 100), the call
`getPosition(axis)` returns exactly `mid`, which is 512. -/
theorem getPosition_deadband (j : joystick) (hj : Reachable j) (axis : axis_t) (s : Int)
    (h : |s - j.raw_mid axis| ≤ j.mid_deadband) :
    j.getPosition axis s = some j.mid ∧ j.mid = 512 ∧ j.mid_deadband = 100 := by
  have hc := reachable_calibrated hj
  have hd := hc.2.2.2.2.2.1
  rw [hd, abs_le] at h
  refine ⟨?_, hc.2.1, hd⟩
  rw [hc.2.1]
  exact getPos_dead hc axis ⟨by omega, by omega⟩

theorem getPosition_deadband_witness :
    Reachable ((joystick.construct 14 15 2 true).calibrateCenter 300 700) ∧
    ((joystick.construct 14 15 2 true).calibrateCenter 300 700).getPosition .X 400 =
      some 512 :=
  ⟨.calibrateCenter _ 300 700 (.construct 14 15 2 true (by decide) (by decide) (by decide)),
   by
    have h := getPosition_deadband ((joystick.construct 14 15 2 true).calibrateCenter 300 700)
      (.calibrateCenter _ 300 700 (.construct 14 15 2 true (by decide) (by decide) (by decide)))
      .X 400 (by decide)
    exact h.1⟩

/-- C2: on every reachable reader and for every axis, `getPosition(axis)` is
monotonically non-decreasing in the raw sample over
`(raw_mid + mid_deadband, raw_max]`, and it returns exactly `max`, which is
1023, at the sample `raw_max`, which is 1023. -/
theorem getPosition_upper_monotone (j : joystick) (hj : Reachable j) (axis : axis_t)
    (s t : Int) (hs : j.raw_mid axis + j.mid_deadband < s) (hst : s ≤ t)
    (ht : t ≤ j.raw_max axis) :
    (∃ v w, j.getPosition axis s = some v ∧ j.getPosition axis t = some w ∧ v ≤ w) ∧
    j.getPosition axis (j.raw_max axis) = some j.max ∧
    j.raw_max axis = 1023 ∧ j.max = 1023 := by
  have hc := reachable_calibrated hj
  have hd := hc.2.2.2.2.2.1
  have hmax := hc.2.2.1
  have hu := hc.2.2.2.2.2.2.2.1 axis
  have hm := hc.2.2.2.2.2.2.2.2 axis
  rw [hd] at hs
  rw [hu] at ht
  refine ⟨⟨_, _, getPos_high hc axis hs (by omega), getPos_high hc axis (by omega) ht, ?_⟩,
    ?_, hu, hmax⟩
  · unfold mapExact
    have := tdiv_mono (a := (s - j.raw_mid axis) * (1023 - 512))
      (b := (t - j.raw_mid axis) * (1023 - 512)) (c := 1023 - j.raw_mid axis)
      (by omega) (by omega) (by omega)
    omega
  · rw [hu, hmax]
    show j.getPos axis 1023 = some 1023
    rw [getPos_high hc axis (by omega) (le_refl _)]
    unfold mapExact
    rw [Int.mul_tdiv_cancel_left _ (by omega)]
    rfl

theorem getPosition_upper_monotone_witness :
    (∃ v w, ((joystick.construct 14 15 2 true).calibrateCenter 300 700).getPosition .Y 801 =
        some v ∧
      ((joystick.construct 14 15 2 true).calibrateCenter 300 700).getPosition .Y 1000 =
        some w ∧ v ≤ w) ∧
    ((joystick.construct 14 15 2 true).calibrateCenter 300 700).getPosition .Y 1023 =
      some 1023 :=
  have h := getPosition_upper_monotone
    ((joystick.construct 14 15 2 true).calibrateCenter 300 700)
    (.calibrateCenter _ 300 700 (.construct 14 15 2 true (by decide) (by decide) (by decide)))
    .Y 801 1000 (by decide) (by decide) (by decide)
  ⟨h.1, h.2.1⟩

/-- C3: on every reachable reader and for every axis, `getPosition(axis)` is
monotonically non-decreasing in the raw sample over
`[raw_min, raw_mid - mid_deadband)`, and it returns exactly `min`, which is 0,
at the sample `raw_min`, which is 0. -/
theorem getPosition_lower_monotone (j : joystick) (hj : Reachable j) (axis : axis_t)
    (s t : Int) (hs : j.raw_min axis ≤ s) (hst : s ≤ t)
    (ht : t < j.raw_mid axis - j.mid_deadband) :
    (∃ v w, j.getPosition axis s = some v ∧ j.getPosition axis t = some w ∧ v ≤ w) ∧
    j.getPosition axis (j.raw_min axis) = some j.min ∧
    j.raw_min axis = 0 ∧ j.min = 0 := by
  have hc := reachable_calibrated hj
  have hd := hc.2.2.2.2.2.1
  have hmin := hc.1
  have hl := hc.2.2.2.2.2.2.1 axis
  have hm := hc.2.2.2.2.2.2.2.2 axis
  rw [hd] at ht
  rw [hl] at hs
  refine ⟨⟨_, _, getPos_low hc axis hs (by omega), getPos_low hc axis (by omega) ht, ?_⟩,
    ?_, hl, hmin⟩
  · unfold mapExact
    have := tdiv_mono (a := (s - 0) * (512 - 0)) (b := (t - 0) * (512 - 0))
      (c := j.raw_mid axis - 0) (by omega) (by omega) (by omega)
    omega
  · rw [hl, hmin]
    show j.getPos axis 0 = some 0
    rw [getPos_low hc axis (le_refl _) (by omega)]
    unfold mapExact
    simp

theorem getPosition_lower_monotone_witness :
    (∃ v w, ((joystick.construct 14 15 2 true).calibrateCenter 300 700).getPosition .X 10 =
        some v ∧
      ((joystick.construct 14 15 2 true).calibrateCenter 300 700).getPosition .X 199 =
        some w ∧ v ≤ w) ∧
    ((joystick.construct 14 15 2 true).calibrateCenter 300 700).getPosition .X 0 = some 0 :=
  have h := getPosition_lower_monotone
    ((joystick.construct 14 15 2 true).calibrateCenter 300 700)
    (.calibrateCenter _ 300 700 (.construct 14 15 2 true (by decide) (by decide) (by decide)))
    .X 10 199 (by decide) (by decide) (by decide)
  ⟨h.1, h.2.1⟩

/-- C4: on every reachable reader, for every axis and every raw sample in the
ADC range `[0, 1023]`, `getPosition(axis)` returns a value `v` with
`min <= v <= max`, that is `0 <= v <= 1023`, and no conversion or arithmetic
step of the computation overflows its type. -/
theorem getPosition_in_range (j : joystick) (hj : Reachable j) (axis : axis_t) (s : Int)
    (hs : 0 ≤ s ∧ s ≤ 1023) :
    (∃ v, j.getPosition axis s = some v ∧ j.min ≤ v ∧ v ≤ j.max ∧ 0 ≤ v ∧ v ≤ 1023) ∧
    j.getPosNoOverflow axis s := by
  have hc := reachable_calibrated hj
  obtain ⟨hmin, hmid, hmax, -, -, hd, h7, h8, h9⟩ := id hc
  have hl := h7 axis
  have hu := h8 axis
  have hm := h9 axis
  have e1 : toCInt (s - j.raw_mid axis) = s - j.raw_mid axis :=
    toCInt_eq (by unfold inInt16; omega)
  have key : (∃ v, j.getPos axis s = some v ∧ 0 ≤ v ∧ v ≤ 1023) ∧
      j.scaleNoOverflow s 0 (j.raw_mid axis) 1023 := by
    unfold joystick.scaleNoOverflow
    rw [e1, hd, hmin, hmid, hmax]
    refine ⟨?_, by unfold inInt16; omega, Or.inr (by unfold inInt16; omega),
      by unfold abs toCInt inUInt16; split <;> omega, ?_⟩
    · by_cases c1 : -100 ≤ s - j.raw_mid axis ∧ s - j.raw_mid axis ≤ 100
      · exact ⟨512, getPos_dead hc axis c1, by omega, by omega⟩
      · by_cases c2 : s < j.raw_mid axis
        · obtain ⟨_, k2, k3⟩ := map_low hs.1 (by omega : s ≤ j.raw_mid axis) (by omega)
            (by omega)
          exact ⟨_, getPos_low hc axis hs.1 (by omega), k2, by omega⟩
        · obtain ⟨_, k2, k3⟩ := map_high (by omega : j.raw_mid axis ≤ s) hs.2 (by omega)
            (by omega)
          exact ⟨_, getPos_high hc axis (by omega) hs.2, by omega, k3⟩
    · split
      · unfold inInt16; omega
      · rename_i c1
        have c1' : ¬ (-100 ≤ s - j.raw_mid axis ∧ s - j.raw_mid axis ≤ 100) := by
          intro c
          apply c1
          unfold abs toUInt16 toCInt
          split <;> omega
        split
        · rename_i c2
          obtain ⟨k1, k2, k3⟩ := map_low hs.1 (by omega : s ≤ j.raw_mid axis) (by omega)
            (by omega)
          exact ⟨k1, by unfold inInt16; omega⟩
        · rename_i c2
          obtain ⟨k1, k2, k3⟩ := map_high (by omega : j.raw_mid axis ≤ s) hs.2 (by omega)
            (by omega)
          exact ⟨k1, by unfold inInt16; omega⟩
  obtain ⟨⟨v, kv, k0, k1⟩, kn⟩ := key
  refine ⟨⟨v, kv, by omega, by omega, k0, k1⟩, ?_⟩
  cases axis <;>
    simp only [joystick.raw_min, joystick.raw_max, joystick.raw_mid] at hl hu hm kn <;>
    simp only [joystick.getPosNoOverflow, hl, hu] <;>
    exact ⟨by unfold inInt16; omega, by unfold inInt16; omega, by unfold inInt16; omega,
      by unfold inInt16; omega, kn⟩

theorem getPosition_in_range_witness :
    (∃ v, ((joystick.construct 14 15 2 true).calibrateCenter 300 700).getPosition .X 1000 =
        some v ∧ 0 ≤ v ∧ v ≤ 1023) ∧
    ((joystick.construct 14 15 2 true).calibrateCenter 300 700).getPosNoOverflow .X 1000 :=
  have h := getPosition_in_range
    ((joystick.construct 14 15 2 true).calibrateCenter 300 700)
    (.calibrateCenter _ 300 700 (.construct 14 15 2 true (by decide) (by decide) (by decide)))
    .X 1000 (by decide)
  ⟨h.1.imp fun _ hv => ⟨hv.1, hv.2.2.2⟩, h.2⟩

/-! ## Calibration: `calibrateCenter()` -/

/-- C5: on every reachable reader (`mid_min` is 256, `mid_max` is 768) and for
all values `x`, `y` returned by `analogRead`, `calibrateCenter` sets `x_mid` to
`x` exactly when `mid_min < x < mid_max` and leaves it unchanged otherwise,
whatever `y` is, and likewise sets `y_mid` from `y` alone; the samples 800, 256
and 768 leave the centre of their axis unchanged. -/
theorem calibrateCenter_accepts_iff (j : joystick) (hj : Reachable j) (x y : Int)
    (hx : inInt16 x) (hy : inInt16 y) :
    j.mid_min = 256 ∧ j.mid_max = 768 ∧
    (j.calibrateCenter x y).x_mid = (if j.mid_min < x ∧ x < j.mid_max then x else j.x_mid) ∧
    (j.calibrateCenter x y).y_mid = (if j.mid_min < y ∧ y < j.mid_max then y else j.y_mid) ∧
    ((j.calibrateCenter x y).x_mid = x ↔ 256 < x ∧ x < 768) ∧
    ((j.calibrateCenter x y).y_mid = y ↔ 256 < y ∧ y < 768) ∧
    (x = 800 ∨ x = 256 ∨ x = 768 → (j.calibrateCenter x y).x_mid = j.x_mid) ∧
    (y = 800 ∨ y = 256 ∨ y = 768 → (j.calibrateCenter x y).y_mid = j.y_mid) := by
  have hc := reachable_calibrated hj
  obtain ⟨-, -, -, h4, h5, -, -, -, h9⟩ := hc
  have mx := h9 .X
  have my := h9 .Y
  simp only [joystick.raw_mid] at mx my
  unfold inInt16 at hx hy
  have ex : (j.calibrateCenter x y).x_mid = (if 256 < x ∧ x < 768 then x else j.x_mid) := by
    unfold joystick.calibrateCenter
    simp only [h4, h5]
    by_cases cx : toUInt16 x > 256 ∧ toUInt16 x < 768 <;>
    by_cases cy : toUInt16 y > 256 ∧ toUInt16 y < 768 <;>
    simp only [cx, cy, if_true, if_false, and_self, h4, h5] <;>
    simp only [toUInt16] at cx ⊢ <;> split <;> omega
  have ey : (j.calibrateCenter x y).y_mid = (if 256 < y ∧ y < 768 then y else j.y_mid) := by
    unfold joystick.calibrateCenter
    simp only [h4, h5]
    by_cases cx : toUInt16 x > 256 ∧ toUInt16 x < 768 <;>
    by_cases cy : toUInt16 y > 256 ∧ toUInt16 y < 768 <;>
    simp only [cx, cy, if_true, if_false, and_self, h4, h5] <;>
    simp only [toUInt16] at cy ⊢ <;> split <;> omega
  rw [h4, h5]
  refine ⟨rfl, rfl, ex, ey, ?_, ?_, ?_, ?_⟩
  · rw [ex]; split <;> omega
  · rw [ey]; split <;> omega
  · intro h; rw [ex]; split <;> omega
  · intro h; rw [ey]; split <;> omega

theorem calibrateCenter_accepts_iff_witness :
    ((joystick.construct 14 15 2 true).calibrateCenter 300 800).x_mid = 300 ∧
    ((joystick.construct 14 15 2 true).calibrateCenter 300 800).y_mid = 512 :=
  have h := calibrateCenter_accepts_iff (joystick.construct 14 15 2 true)
    (.construct 14 15 2 true (by decide) (by decide) (by decide)) 300 800
    (by decide) (by decide)
  ⟨h.2.2.1, h.2.2.2.2.2.2.2 (Or.inl rfl)⟩

/-- C6: calibration is idempotent.  For every state and every pair of samples
(in range or not), calling `calibrateCenter` twice, or any number `n + 1` of
times, with the same samples yields the same state as calling it once, so both
overloads of `getPosition` return afterwards what they return after a single
call. -/
theorem calibrateCenter_idempotent (j : joystick) (x y : Int) (n : Nat) :
    (j.calibrateCenter x y).calibrateCenter x y = j.calibrateCenter x y ∧
    Nat.iterate (fun k => k.calibrateCenter x y) (n + 1) j = j.calibrateCenter x y ∧
    (∀ axis s, (Nat.iterate (fun k => k.calibrateCenter x y) (n + 1) j).getPosition axis s =
      (j.calibrateCenter x y).getPosition axis s) ∧
    (∀ axis lo hi inv s,
      (Nat.iterate (fun k => k.calibrateCenter x y) (n + 1) j).getPositionRange axis lo hi inv s =
      (j.calibrateCenter x y).getPositionRange axis lo hi inv s) := by
  have twice : ∀ k : joystick,
      (k.calibrateCenter x y).calibrateCenter x y = k.calibrateCenter x y := by
    intro k
    unfold joystick.calibrateCenter
    by_cases cx : toUInt16 x > k.mid_min ∧ toUInt16 x < k.mid_max <;>
    by_cases cy : toUInt16 y > k.mid_min ∧ toUInt16 y < k.mid_max <;>
    simp only [cx, cy, if_true, if_false, and_self]
  have many : Nat.iterate (fun k => k.calibrateCenter x y) (n + 1) j =
      j.calibrateCenter x y := by
    induction n with
    | zero => rfl
    | succ m ih =>
      rw [Function.iterate_succ_apply', ih]
      exact twice j
  refine ⟨twice j, many, ?_, ?_⟩
  · intro axis s; rw [many]
  · intro axis lo hi inv s; rw [many]

/-! ## Rescaled reading: `getPosition(axis, rangeMin, rangeMax, invert)` -/

/-- C7: on every reachable reader, with truncating division, a sample whose
calibrated reading is exactly `mid` (512) gives 50 from
`getPosition(axis, 0, 100, false)` and 50 from `getPosition(axis, 0, 100, true)`,
and a sample whose calibrated reading is 1023 gives 0 from
`getPosition(axis, 0, 100, true)` and 100 from `getPosition(axis, 0, 100, false)`. -/
theorem getPositionRange_percent (j : joystick) (hj : Reachable j) (axis : axis_t)
    (s t : Int) (hs : j.getPosition axis s = some j.mid)
    (ht : j.getPosition axis t = some 1023) :
    j.mid = 512 ∧
    j.getPositionRange axis 0 100 false s = some 50 ∧
    j.getPositionRange axis 0 100 true s = some 50 ∧
    j.getPositionRange axis 0 100 true t = some 0 ∧
    j.getPositionRange axis 0 100 false t = some 100 := by
  have hc := reachable_calibrated hj
  have hmid := hc.2.1
  rw [hmid] at hs
  unfold joystick.getPosition at hs ht
  unfold joystick.getPositionRange
  simp only [hs, ht, Option.some_bind, hc.1, hc.2.2.1, hmid, if_true, Bool.false_eq_true,
    if_false]
  decide

theorem getPositionRange_percent_witness :
    (joystick.construct 14 15 2 true).getPositionRange .X 0 100 false 512 = some 50 ∧
    (joystick.construct 14 15 2 true).getPositionRange .X 0 100 true 512 = some 50 ∧
    (joystick.construct 14 15 2 true).getPositionRange .X 0 100 true 1023 = some 0 ∧
    (joystick.construct 14 15 2 true).getPositionRange .X 0 100 false 1023 = some 100 :=
  (getPositionRange_percent (joystick.construct 14 15 2 true)
    (.construct 14 15 2 true (by decide) (by decide) (by decide)) .X 512 1023
    (by decide) (by decide)).2

/-- C8: on every reachable reader, for every axis, all `int16_t` bounds
`rangeMin` and `rangeMax`, either value of `invert` and every raw sample in
`[0, 1023]`, the range overload of `getPosition` returns a value between
`rangeMin` and `rangeMax` inclusive (in `[rangeMin, rangeMax]` when
`rangeMin <= rangeMax`); without `invert` a calibrated reading of 0 gives
`rangeMin` and a calibrated reading of 1023 gives `rangeMax`, which happens at
the raw samples 0 and 1023. -/
theorem getPositionRange_in_range (j : joystick) (hj : Reachable j) (axis : axis_t)
    (rangeMin rangeMax : Int) (invert : Bool) (s : Int)
    (hlo : inInt16 rangeMin) (hhi : inInt16 rangeMax) (hs : 0 ≤ s ∧ s ≤ 1023) :
    (∃ v, j.getPositionRange axis rangeMin rangeMax invert s = some v ∧
      min rangeMin rangeMax ≤ v ∧ v ≤ max rangeMin rangeMax ∧
      (rangeMin ≤ rangeMax → rangeMin ≤ v ∧ v ≤ rangeMax)) ∧
    (j.getPosition axis s = some 0 →
      j.getPositionRange axis rangeMin rangeMax false s = some rangeMin) ∧
    (j.getPosition axis s = some 1023 →
      j.getPositionRange axis rangeMin rangeMax false s = some rangeMax) ∧
    j.getPositionRange axis rangeMin rangeMax false 0 = some rangeMin ∧
    j.getPositionRange axis rangeMin rangeMax false 1023 = some rangeMax := by
  have hc := reachable_calibrated hj
  have hm := hc.2.2.2.2.2.2.2.2 axis
  have e0 : mapExact 0 0 1023 rangeMin rangeMax = rangeMin := by
    unfold mapExact; simp
  have e1 : mapExact 1023 0 1023 rangeMin rangeMax = rangeMax := by
    unfold mapExact
    rw [Int.mul_tdiv_cancel_left _ (by omega)]
    omega
  have plain : ∀ u c : Int, j.getPos axis u = some c → 0 ≤ c ∧ c ≤ 1023 →
      j.getPositionRange axis rangeMin rangeMax false u =
        some (mapExact c 0 1023 rangeMin rangeMax) := by
    intro u c hu hcr
    unfold joystick.getPositionRange
    simp only [hu, Option.some_bind, Bool.false_eq_true, if_false]
    exact rescale_eq hc hcr hlo hhi
  have p0 : j.getPos axis 0 = some 0 := by
    rw [getPos_low hc axis (le_refl _) (by omega)]
    unfold mapExact; simp
  have p1 : j.getPos axis 1023 = some 1023 := by
    rw [getPos_high hc axis (by omega) (le_refl _)]
    unfold mapExact
    rw [Int.mul_tdiv_cancel_left _ (by omega)]
    rfl
  refine ⟨?_, ?_, ?_, ?_, ?_⟩
  · obtain ⟨c, c', hcs, -, c0, cle, cu⟩ := getPos_mono hc axis hs.1 (le_refl s) hs.2
    have c1 : c ≤ 1023 := le_trans cle cu
    cases invert
    · obtain ⟨-, k2, k3⟩ := map_range ⟨c0, c1⟩ hlo hhi
      refine ⟨_, plain s c hcs ⟨c0, c1⟩, ?_, ?_, k2⟩
      · rcases le_total rangeMin rangeMax with h | h
        · rw [min_eq_left h]; exact (k2 h).1
        · rw [min_eq_right h]; exact (k3 h).1
      · rcases le_total rangeMin rangeMax with h | h
        · rw [max_eq_right h]; exact (k2 h).2
        · rw [max_eq_left h]; exact (k3 h).2
    · obtain ⟨-, k2, k3⟩ := map_range ⟨c0, c1⟩ hhi hlo
      have e : j.getPositionRange axis rangeMin rangeMax true s =
          some (mapExact c 0 1023 rangeMax rangeMin) := by
        unfold joystick.getPositionRange
        simp only [hcs, Option.some_bind, if_true, toCInt_eq hlo, toCInt_eq hhi,
          toInt16_eq hlo, toInt16_eq hhi]
        exact rescale_eq hc ⟨c0, c1⟩ hhi hlo
      refine ⟨_, e, ?_, ?_, ?_⟩
      · rcases le_total rangeMin rangeMax with h | h
        · rw [min_eq_left h]; exact (k3 h).1
        · rw [min_eq_right h]; exact (k2 h).1
      · rcases le_total rangeMin rangeMax with h | h
        · rw [max_eq_right h]; exact (k3 h).2
        · rw [max_eq_left h]; exact (k2 h).2
      · exact k3
  · intro h
    rw [plain s 0 h ⟨by omega, by omega⟩, e0]
  · intro h
    rw [plain s 1023 h ⟨by omega, by omega⟩, e1]
  · rw [plain 0 0 p0 ⟨by omega, by omega⟩, e0]
  · rw [plain 1023 1023 p1 ⟨by omega, by omega⟩, e1]

theorem getPositionRange_in_range_witness :
    (∃ v, ((joystick.construct 14 15 2 true).calibrateCenter 300 700).getPositionRange
        .Y (-90) 90 true 900 = some v ∧ -90 ≤ v ∧ v ≤ 90) ∧
    ((joystick.construct 14 15 2 true).calibrateCenter 300 700).getPositionRange
        .Y (-90) 90 false 0 = some (-90) ∧
    ((joystick.construct 14 15 2 true).calibrateCenter 300 700).getPositionRange
        .Y (-90) 90 false 1023 = some 90 :=
  have h := getPositionRange_in_range
    ((joystick.construct 14 15 2 true).calibrateCenter 300 700)
    (.calibrateCenter _ 300 700 (.construct 14 15 2 true (by decide) (by decide) (by decide)))
    .Y (-90) 90 true 900 (by decide) (by decide) (by decide)
  ⟨h.1.imp fun _ hv => ⟨hv.1, hv.2.2.2 (by decide)⟩, h.2.2.2.1, h.2.2.2.2⟩

/-- C9: for all `int16_t` bounds `a`, `b`: on every state, axis and sample,
`getPosition(axis, a, b, true)` equals `getPosition(axis, b, a, false)`; and
when `a > b`, without `invert`, the result on a reachable reader is
non-increasing in the calibrated value and in the raw sample (samples in the
ADC range `[0, 1023]`). -/
theorem getPositionRange_invert_swaps (a b : Int) (ha : inInt16 a) (hb : inInt16 b) :
    (∀ (j : joystick) (axis : axis_t) (s : Int),
      j.getPositionRange axis a b true s = j.getPositionRange axis b a false s) ∧
    (b < a → ∀ (j : joystick), Reachable j → ∀ (axis : axis_t) (s t : Int),
      0 ≤ s ∧ s ≤ 1023 → 0 ≤ t ∧ t ≤ 1023 →
      ∃ cs ct p q, j.getPosition axis s = some cs ∧ j.getPosition axis t = some ct ∧
        j.getPositionRange axis a b false s = some p ∧
        j.getPositionRange axis a b false t = some q ∧
        (cs ≤ ct → q ≤ p) ∧ (s ≤ t → q ≤ p)) := by
  constructor
  · intro j axis s
    unfold joystick.getPositionRange
    simp only [if_true, Bool.false_eq_true, if_false, toCInt_eq ha, toCInt_eq hb,
      toInt16_eq ha, toInt16_eq hb]
  · intro hba j hj axis s t hs ht
    have hc := reachable_calibrated hj
    obtain ⟨cs, cs', hcs, -, s0, sle, su⟩ := getPos_mono hc axis hs.1 (le_refl s) hs.2
    obtain ⟨ct, ct', hct, -, t0, tle, tu⟩ := getPos_mono hc axis ht.1 (le_refl t) ht.2
    have s1 : cs ≤ 1023 := le_trans sle su
    have t1 : ct ≤ 1023 := le_trans tle tu
    have es : j.getPositionRange axis a b false s = some (mapExact cs 0 1023 a b) := by
      unfold joystick.getPositionRange
      simp only [hcs, Option.some_bind, Bool.false_eq_true, if_false]
      exact rescale_eq hc ⟨s0, s1⟩ ha hb
    have et : j.getPositionRange axis a b false t = some (mapExact ct 0 1023 a b) := by
      unfold joystick.getPositionRange
      simp only [hct, Option.some_bind, Bool.false_eq_true, if_false]
      exact rescale_eq hc ⟨t0, t1⟩ ha hb
    refine ⟨cs, ct, _, _, hcs, hct, es, et, ?_, ?_⟩
    · intro h
      exact (mapExact_rescale_mono h).1 (le_of_lt hba)
    · intro h
      obtain ⟨u, w, hu, hw, -, huw, -⟩ := getPos_mono hc axis hs.1 h ht.2
      rw [hcs] at hu
      rw [hct] at hw
      cases hu
      cases hw
      exact (mapExact_rescale_mono huw).1 (le_of_lt hba)

theorem getPositionRange_invert_swaps_witness :
    (joystick.construct 14 15 2 true).getPositionRange .X 100 0 true 900 =
      (joystick.construct 14 15 2 true).getPositionRange .X 0 100 false 900 ∧
    ∃ cs ct p q, (joystick.construct 14 15 2 true).getPosition .X 200 = some cs ∧
      (joystick.construct 14 15 2 true).getPosition .X 900 = some ct ∧
      (joystick.construct 14 15 2 true).getPositionRange .X 100 0 false 200 = some p ∧
      (joystick.construct 14 15 2 true).getPositionRange .X 100 0 false 900 = some q ∧
      (cs ≤ ct → q ≤ p) ∧ ((200 : Int) ≤ 900 → q ≤ p) :=
  have h := getPositionRange_invert_swaps 100 0 (by decide) (by decide)
  ⟨h.1 _ .X 900,
   h.2 (by decide) (joystick.construct 14 15 2 true)
    (.construct 14 15 2 true (by decide) (by decide) (by decide)) .X 200 900
    (by decide) (by decide)⟩

/-! ## Button: `getButton()` -/

/-- C10 (as stated, refuted): from the stored level `false`, reading the levels
`false`, `true`, `false` does not give `false`, `false`, `true`: the second
call returns `true` and the third reaches the end of the body without a
`return` statement. -/
theorem getButton_scenario_counterexample :
    (joystick.construct 14 15 2 false).getButtons [false, true, false] =
      [some false, some true, none] ∧
    (joystick.construct 14 15 2 false).getButtons [false, true, false] ≠
      [some false, some false, some true] := by
  decide

/-- C10 (amended): from the stored level `false`, reading the levels `false`
then `true`, `getButton` returns `false` on the first call (level unchanged)
and `true` on the second call (the level rose to `true`, the released level of
the pulled-up pin); the stored level is `false` after the first call and `true`
after the second, and a third call reading `false` stores `false`. -/
theorem getButton_scenario (j : joystick) (h : j.b_state = false) :
    (j.getButton false).2 = some false ∧
    (j.getButton false).1 = j ∧
    ((j.getButton false).1.getButton true).2 = some true ∧
    ((j.getButton false).1.getButton true).1.b_state = true ∧
    (((j.getButton false).1.getButton true).1.getButton false).1.b_state = false ∧
    List.take 2 (j.getButtons [false, true, false]) = [some false, some true] := by
  unfold joystick.getButtons joystick.getButtons joystick.getButtons joystick.getButton
  simp [h]

theorem getButton_scenario_witness :
    (joystick.construct 14 15 2 false).b_state = false ∧
    ((joystick.construct 14 15 2 false).getButton false).2 = some false ∧
    (((joystick.construct 14 15 2 false).getButton false).1.getButton true).2 = some true :=
  have h := getButton_scenario (joystick.construct 14 15 2 false) rfl
  ⟨rfl, h.1, h.2.2.1⟩

/-- C11 (code defect): `getButton` returns `false` when the level read equals
the stored level and `true` when the level changed and the new level is `true`
(released); when the level changed and the new level is `false` (Released to
Pressed) control reaches the end of the body without a `return` statement, so
no defined boolean is returned where the claim requires `false`. -/
theorem getButton_result (j : joystick) (level : Bool) :
    (j.getButton level).2 =
      (if j.b_state = level then some false
       else if level = true then some true else none) ∧
    ((joystick.construct 14 15 2 true).getButton false).2 = none := by
  refine ⟨?_, by decide⟩
  cases level <;> cases hb : j.b_state <;> simp [joystick.getButton, hb]

/-! ## Interpolation formula, division by zero and frame conditions -/

/-- C18: on every reachable reader, for a sample `s` in the ADC range below the
deadband (`s < raw_mid - mid_deadband`) `getPosition(axis)` is
`min + (s - raw_min) * (mid - min) / (raw_mid - raw_min)`, that is
`s * 512 / raw_mid`, and for a sample `t` in the ADC range above the deadband
(`t > raw_mid + mid_deadband`) it is
`mid + (t - raw_mid) * (max - mid) / (raw_max - raw_mid)`, that is
`512 + (t - raw_mid) * 511 / (1023 - raw_mid)`; the division truncates. -/
theorem getPosition_affine (j : joystick) (hj : Reachable j) (axis : axis_t) (s t : Int)
    (hs0 : 0 ≤ s) (hs : s < j.raw_mid axis - j.mid_deadband)
    (ht : j.raw_mid axis + j.mid_deadband < t) (ht1 : t ≤ 1023) :
    j.getPosition axis s =
      some (j.min + Int.tdiv ((s - j.raw_min axis) * (j.mid - j.min))
        (j.raw_mid axis - j.raw_min axis)) ∧
    j.getPosition axis s = some (Int.tdiv (s * 512) (j.raw_mid axis)) ∧
    j.getPosition axis t =
      some (j.mid + Int.tdiv ((t - j.raw_mid axis) * (j.max - j.mid))
        (j.raw_max axis - j.raw_mid axis)) ∧
    j.getPosition axis t =
      some (512 + Int.tdiv ((t - j.raw_mid axis) * 511) (1023 - j.raw_mid axis)) := by
  have hc := reachable_calibrated hj
  obtain ⟨hmin, hmid, hmax, -, -, hd, h7, h8, -⟩ := id hc
  rw [hd] at hs ht
  have e1 : j.getPosition axis s = some (mapExact s 0 (j.raw_mid axis) 0 512) :=
    getPos_low hc axis hs0 hs
  have e2 : j.getPosition axis t = some (mapExact t (j.raw_mid axis) 1023 512 1023) :=
    getPos_high hc axis ht ht1
  rw [e1, e2, hmin, hmid, hmax, h7 axis, h8 axis]
  unfold mapExact
  simp only [sub_zero, zero_add, add_zero]
  refine ⟨trivial, trivial, ?_, ?_⟩
  · rw [add_comm]
  · rw [add_comm]; rfl

theorem getPosition_affine_witness :
    ((joystick.construct 14 15 2 true).calibrateCenter 300 700).getPosition .X 150 =
      some (Int.tdiv (150 * 512) 300) ∧
    ((joystick.construct 14 15 2 true).calibrateCenter 300 700).getPosition .X 900 =
      some (512 + Int.tdiv ((900 - 300) * 511) (1023 - 300)) :=
  have h := getPosition_affine
    ((joystick.construct 14 15 2 true).calibrateCenter 300 700)
    (.calibrateCenter _ 300 700 (.construct 14 15 2 true (by decide) (by decide) (by decide)))
    .X 150 900 (by decide) (by decide) (by decide) (by decide)
  ⟨h.2.1, h.2.2.2⟩

/-- C19: in every state reachable from construction (by `calibrateCenter` calls
with arbitrary samples, button reads and writes of `debug`) each axis has
`raw_min <= raw_mid <= raw_max`, indeed `256 < raw_mid < 768`, so `raw_mid`
differs from `raw_min` and from `raw_max`; neither `map` call of `getPos` has a
zero divisor and `getPosition` returns a value for every sample. -/
theorem reachable_no_division_by_zero (j : joystick) (hj : Reachable j) (axis : axis_t) :
    j.raw_min axis ≤ j.raw_mid axis ∧ j.raw_mid axis ≤ j.raw_max axis ∧
    256 < j.raw_mid axis ∧ j.raw_mid axis < 768 ∧
    j.raw_mid axis ≠ j.raw_min axis ∧ j.raw_mid axis ≠ j.raw_max axis ∧
    (∀ val : Int,
      map val (toInt16 (j.raw_min axis)) (toInt16 (j.raw_mid axis)) j.min j.mid ≠ none ∧
      map val (toInt16 (j.raw_mid axis)) (toInt16 (j.raw_max axis)) j.mid j.max ≠ none) ∧
    (∀ s : Int, j.getPosition axis s ≠ none) := by
  have hc := reachable_calibrated hj
  have hl := hc.2.2.2.2.2.2.1 axis
  have hu := hc.2.2.2.2.2.2.2.1 axis
  have hm := hc.2.2.2.2.2.2.2.2 axis
  refine ⟨by omega, by omega, hm.1, hm.2, by omega, by omega,
    fun val => calibrated_map_ne_none hc axis val,
    fun s => calibrated_getPos_ne_none hc axis s⟩

theorem reachable_no_division_by_zero_witness :
    256 < ((joystick.construct 14 15 2 true).calibrateCenter 257 70000).raw_mid .X ∧
    ((joystick.construct 14 15 2 true).calibrateCenter 257 70000).raw_mid .Y < 768 ∧
    ((joystick.construct 14 15 2 true).calibrateCenter 257 70000).getPosition .X 0 ≠ none :=
  ⟨(reachable_no_division_by_zero
      ((joystick.construct 14 15 2 true).calibrateCenter 257 70000)
      (.calibrateCenter _ 257 70000
        (.construct 14 15 2 true (by decide) (by decide) (by decide))) .X).2.2.1,
   (reachable_no_division_by_zero
      ((joystick.construct 14 15 2 true).calibrateCenter 257 70000)
      (.calibrateCenter _ 257 70000
        (.construct 14 15 2 true (by decide) (by decide) (by decide))) .Y).2.2.2.1,
   (reachable_no_division_by_zero
      ((joystick.construct 14 15 2 true).calibrateCenter 257 70000)
      (.calibrateCenter _ 257 70000
        (.construct 14 15 2 true (by decide) (by decide) (by decide))) .X).2.2.2.2.2.2.2 0⟩

/-- C20: frame conditions of the reader.  Both overloads of `getPosition` leave
the object unchanged; `calibrateCenter` changes no member other than `x_mid`
and `y_mid`; `getButton` changes no member other than `b_state`, which becomes
the level read. -/
theorem joystick_frame (j : joystick) :
    (∀ axis raw, (j.getPositionRun axis raw).1 = j) ∧
    (∀ axis lo hi inv raw, (j.getPositionRangeRun axis lo hi inv raw).1 = j) ∧
    (∀ x y, j.calibrateCenter x y =
      { j with x_mid := (j.calibrateCenter x y).x_mid,
               y_mid := (j.calibrateCenter x y).y_mid }) ∧
    (∀ x y, (j.calibrateCenter x y).min = j.min ∧ (j.calibrateCenter x y).mid = j.mid ∧
      (j.calibrateCenter x y).max = j.max ∧ (j.calibrateCenter x y).mid_min = j.mid_min ∧
      (j.calibrateCenter x y).mid_max = j.mid_max ∧
      (j.calibrateCenter x y).mid_deadband = j.mid_deadband ∧
      (j.calibrateCenter x y).x_pin = j.x_pin ∧ (j.calibrateCenter x y).x_min = j.x_min ∧
      (j.calibrateCenter x y).x_max = j.x_max ∧ (j.calibrateCenter x y).y_pin = j.y_pin ∧
      (j.calibrateCenter x y).y_min = j.y_min ∧ (j.calibrateCenter x y).y_max = j.y_max ∧
      (j.calibrateCenter x y).b_pin = j.b_pin ∧ (j.calibrateCenter x y).b_state = j.b_state ∧
      (j.calibrateCenter x y).debug = j.debug) ∧
    (∀ level, (j.getButton level).1 = { j with b_state := level }) := by
  have cal : ∀ x y, j.calibrateCenter x y =
      { j with x_mid := (j.calibrateCenter x y).x_mid,
               y_mid := (j.calibrateCenter x y).y_mid } := by
    intro x y
    unfold joystick.calibrateCenter
    by_cases cx : toUInt16 x > j.mid_min ∧ toUInt16 x < j.mid_max <;>
    by_cases cy : toUInt16 y > j.mid_min ∧ toUInt16 y < j.mid_max <;>
    simp only [cx, cy, if_true, if_false, and_self]
  refine ⟨fun _ _ => rfl, fun _ _ _ _ _ => rfl, cal, ?_, ?_⟩
  · intro x y
    have h := cal x y
    refine ⟨?_, ?_, ?_, ?_, ?_, ?_, ?_, ?_, ?_, ?_, ?_, ?_, ?_, ?_, ?_⟩ <;> rw [h]
  · intro level
    cases level <;> cases hb : j.b_state <;>
      simp [joystick.getButton, hb] <;> (cases j; simp_all)

/-! ## The servo motor: `robotMotor` -/

/-- C12: in every reachable state and for every `pos`, `setPosition(pos)` sets
the stored position, which is also the angle sent to the PWM driver, to `pos`
when `minPosition <= pos <= maxPosition`, to `maxPosition` when
`pos > maxPosition` and to `minPosition` when `pos < minPosition`. -/
theorem setPosition_clamps (m : robotMotor) (hm : MotorReachable m) (pos : Int) :
    (m.minPosition ≤ pos ∧ pos ≤ m.maxPosition → (m.setPosition pos).position = pos) ∧
    (pos > m.maxPosition → (m.setPosition pos).position = m.maxPosition) ∧
    (pos < m.minPosition → (m.setPosition pos).position = m.minPosition) ∧
    (m.setPosition pos).lastAngle = some (m.setPosition pos).position ∧
    (m.setPosition pos).svo =
      { channel := m.motorID, angle := (m.setPosition pos).position } :: m.svo := by
  have hl := motor_reachable_limits hm
  simp only [robotMotor.setPosition, robotMotor.lastAngle]
  split_ifs with h1 h2
  · exact ⟨fun h => by omega, fun _ => rfl, fun h => by omega, rfl, rfl⟩
  · exact ⟨fun h => by omega, fun h => by omega, fun _ => rfl, rfl, rfl⟩
  · exact ⟨fun _ => rfl, fun h => by omega, fun h => by omega, rfl, rfl⟩

theorem setPosition_clamps_witness :
    ((robotMotor.construct 0).setPosition 200).position = 180 ∧
    ((robotMotor.construct 0).setPosition 200).lastAngle = some 180 :=
  have h := setPosition_clamps (robotMotor.construct 0) (.construct 0 (by decide)) 200
  ⟨h.2.1 (by decide), h.2.2.2.1⟩

/-- C13: in every reachable state and for every `val` for which
`position + val` does not overflow an `int`, `moveInc(val)` sets the position
to `position + val` clamped into `[minPosition, maxPosition]`, so
`minPosition <= position <= maxPosition` holds after the call (the limits are
not changed by it), and that position is the angle sent to the PWM driver. -/
theorem moveInc_clamps (m : robotMotor) (hm : MotorReachable m) (val : Int)
    (hov : inInt16 (m.position + val)) :
    (m.moveInc val).position = max m.minPosition (min m.maxPosition (m.position + val)) ∧
    (m.moveInc val).minPosition ≤ (m.moveInc val).position ∧
    (m.moveInc val).position ≤ (m.moveInc val).maxPosition ∧
    (m.moveInc val).minPosition = m.minPosition ∧
    (m.moveInc val).maxPosition = m.maxPosition ∧
    (m.moveInc val).lastAngle = some (m.moveInc val).position := by
  have hl := motor_reachable_limits hm
  simp only [robotMotor.moveInc, robotMotor.lastAngle, toCInt_eq hov]
  split_ifs with h1 h2
  · refine ⟨?_, hl, le_refl _, rfl, rfl, rfl⟩
    show m.maxPosition = _
    rw [min_eq_left (by omega), max_eq_right hl]
  · refine ⟨?_, le_refl _, hl, rfl, rfl, rfl⟩
    show m.minPosition = _
    rw [min_eq_right (by omega), max_eq_left (by omega)]
  · refine ⟨?_, by show m.minPosition ≤ m.position + val; omega,
      by show m.position + val ≤ m.maxPosition; omega, rfl, rfl, rfl⟩
    show m.position + val = _
    rw [min_eq_right (by omega), max_eq_right (by omega)]

theorem moveInc_clamps_witness :
    (((robotMotor.construct 0).setMinPosition 100).moveInc (-5)).position = 100 ∧
    (((robotMotor.construct 0).setMinPosition 100).moveInc (-5)).minPosition ≤
      (((robotMotor.construct 0).setMinPosition 100).moveInc (-5)).position :=
  have h := moveInc_clamps ((robotMotor.construct 0).setMinPosition 100)
    (.setMinPosition _ 100 (by decide) (.construct 0 (by decide))) (-5) (by decide)
  ⟨h.1, h.2.1⟩

/-- C14 (code defect): `attach` sends the stored centre to the PWM driver
without comparing it with the limits.  After `setMinPosition(100)` on a new
motor, `attach(0x40, 0)` sends the angle 90 while `minPosition` is 100; after
`setMaxPosition(45)` it sends 90 while `maxPosition` is 45. -/
theorem attach_ignores_limits :
    MotorReachable (((robotMotor.construct 0).setMinPosition 100).attach 64 0) ∧
    (((robotMotor.construct 0).setMinPosition 100).attach 64 0).lastAngle = some 90 ∧
    (((robotMotor.construct 0).setMinPosition 100).attach 64 0).minPosition = 100 ∧
    MotorReachable (((robotMotor.construct 0).setMaxPosition 45).attach 64 0) ∧
    (((robotMotor.construct 0).setMaxPosition 45).attach 64 0).lastAngle = some 90 ∧
    (((robotMotor.construct 0).setMaxPosition 45).attach 64 0).maxPosition = 45 :=
  ⟨.attach _ 64 0 (by decide) (by decide)
      (.setMinPosition _ 100 (by decide) (.construct 0 (by decide))),
   by decide, by decide,
   .attach _ 64 0 (by decide) (by decide)
      (.setMaxPosition _ 45 (by decide) (.construct 0 (by decide))),
   by decide, by decide⟩

/-- C15 (as stated, refuted): in reachable states a positive `val` can decrease
the stored position and a negative `val` can increase it.  With `maxPosition`
lowered to 45 below the position 90, `moveInc(1)` gives 45; with `minPosition`
raised to 100, `moveInc(-1)` gives 100; and `moveInc(32767)` from 90 overflows
the `int` sum and gives 0. -/
theorem moveInc_direction_counterexample :
    MotorReachable ((robotMotor.construct 0).setMaxPosition 45) ∧
    (((robotMotor.construct 0).setMaxPosition 45).moveInc 1).position <
      ((robotMotor.construct 0).setMaxPosition 45).position ∧
    MotorReachable ((robotMotor.construct 0).setMinPosition 100) ∧
    ((robotMotor.construct 0).setMinPosition 100).position <
      (((robotMotor.construct 0).setMinPosition 100).moveInc (-1)).position ∧
    MotorReachable (robotMotor.construct 0) ∧
    ((robotMotor.construct 0).moveInc 32767).position < (robotMotor.construct 0).position :=
  ⟨.setMaxPosition _ 45 (by decide) (.construct 0 (by decide)), by decide,
   .setMinPosition _ 100 (by decide) (.construct 0 (by decide)), by decide,
   .construct 0 (by decide), by decide⟩

/-- C15 (amended): for every `val` for which `position + val` does not overflow
an `int`, a positive `val` does not decrease the stored position when the
position is at most `maxPosition` before the call, and a negative `val` does
not increase it when the position is at least `minPosition` before the call. -/
theorem moveInc_direction (m : robotMotor) (val : Int)
    (hov : inInt16 (m.position + val)) :
    (0 < val → m.position ≤ m.maxPosition → m.position ≤ (m.moveInc val).position) ∧
    (val < 0 → m.minPosition ≤ m.position → (m.moveInc val).position ≤ m.position) := by
  simp only [robotMotor.moveInc, toCInt_eq hov]
  split_ifs with h1 h2
  · exact ⟨fun _ h => h, fun _ _ => by show m.maxPosition ≤ m.position; omega⟩
  · exact ⟨fun _ _ => by show m.position ≤ m.minPosition; omega, fun _ h => h⟩
  · exact ⟨fun _ _ => by show m.position ≤ m.position + val; omega,
      fun _ _ => by show m.position + val ≤ m.position; omega⟩

theorem moveInc_direction_witness :
    (robotMotor.construct 0).position ≤ ((robotMotor.construct 0).moveInc 200).position ∧
    ((robotMotor.construct 0).moveInc (-200)).position ≤ (robotMotor.construct 0).position :=
  ⟨(moveInc_direction (robotMotor.construct 0) 200 (by decide)).1 (by decide) (by decide),
   (moveInc_direction (robotMotor.construct 0) (-200) (by decide)).2 (by decide) (by decide)⟩

/-- C16 (code defect): after `attach(0x40, 0)` has sent the angle 90 and
`setMinPosition(100)` has raised the lower limit, `getPosition()` returns 100,
which is not the angle most recently sent to the PWM driver. -/
theorem getPosition_differs_from_sent :
    MotorReachable (((robotMotor.construct 0).attach 64 0).setMinPosition 100) ∧
    (((robotMotor.construct 0).attach 64 0).setMinPosition 100).lastAngle = some 90 ∧
    (((robotMotor.construct 0).attach 64 0).setMinPosition 100).getPosition.2 = 100 ∧
    (((robotMotor.construct 0).attach 64 0).setMinPosition 100).getPosition.1.lastAngle =
      some 90 :=
  ⟨.setMinPosition _ 100 (by decide)
      (.attach _ 64 0 (by decide) (by decide) (.construct 0 (by decide))),
   by decide, by decide, by decide⟩

/-- C17: in every reachable state, after `setCenterPosition(p)` the call
`getCenterPosition()` returns `p` when `minPosition <= p <= maxPosition`,
`maxPosition` when `p > maxPosition` and `minPosition` when `p < minPosition`;
`setCenterPosition` changes no member other than `centerPosition`; and a
following `attach` sets the position to that centre and sends it to the PWM
driver. -/
theorem setCenterPosition_roundtrip (m : robotMotor) (hm : MotorReachable m)
    (p i2c ch : Int) :
    (m.minPosition ≤ p ∧ p ≤ m.maxPosition →
      (m.setCenterPosition p).getCenterPosition = p) ∧
    (p > m.maxPosition → (m.setCenterPosition p).getCenterPosition = m.maxPosition) ∧
    (p < m.minPosition → (m.setCenterPosition p).getCenterPosition = m.minPosition) ∧
    m.setCenterPosition p =
      { m with centerPosition := (m.setCenterPosition p).getCenterPosition } ∧
    ((m.setCenterPosition p).attach i2c ch).position =
      (m.setCenterPosition p).getCenterPosition ∧
    ((m.setCenterPosition p).attach i2c ch).lastAngle =
      some (m.setCenterPosition p).getCenterPosition := by
  have hl := motor_reachable_limits hm
  simp only [robotMotor.setCenterPosition, robotMotor.getCenterPosition,
    robotMotor.attach, robotMotor.lastAngle]
  split_ifs with h1 h2
  · refine ⟨fun h => by omega, fun _ => rfl, fun h => by omega, ?_, ?_, ?_⟩ <;>
      first | rfl | trivial
  · refine ⟨fun h => by omega, fun h => by omega, fun _ => rfl, ?_, ?_, ?_⟩ <;>
      first | rfl | trivial
  · refine ⟨fun _ => rfl, fun h => by omega, fun h => by omega, ?_, ?_, ?_⟩ <;>
      first | rfl | trivial

theorem setCenterPosition_roundtrip_witness :
    ((robotMotor.construct 0).setCenterPosition 200).getCenterPosition = 180 ∧
    (((robotMotor.construct 0).setCenterPosition 200).attach 64 3).position = 180 ∧
    (((robotMotor.construct 0).setCenterPosition 200).attach 64 3).lastAngle = some 180 :=
  have h := setCenterPosition_roundtrip (robotMotor.construct 0) (.construct 0 (by decide))
    200 64 3
  ⟨h.2.1 (by decide), h.2.2.2.2.1, h.2.2.2.2.2⟩
end RobotArm
